import Mathlib

/-!
Verification of the Trellis migration core (`src/migrations/index.ts`).

The TypeScript source is shallowly embedded: JavaScript primitives
(`parseInt`, `String(n)`, `split` with a limit, truthiness) are modelled
as total Lean functions, machine numbers as `Int`/`Nat` (the version
strings involved are far below 2^53, where JS number arithmetic on
integers is exact), and the state read by `loadManifests` /
`getMigrationsForVersion` (the manifest cache, filled from the
filesystem) is passed explicitly as an association list, mirroring the
insertion order of a JS object with string keys.
-/

namespace Trellis

/-- Value of a list of decimal digit characters, most significant first. -/
def natOfDigits (ds : List Char) : Nat :=
  ds.foldl (fun acc c => 10 * acc + (c.toNat - 48)) 0

/-- The leading decimal-digit run of a character list, as a number;
`none` when there is no leading digit (JS `parseInt` returns `NaN`). -/
def leadingNat (cs : List Char) : Option Nat :=
  let ds := cs.takeWhile (fun c => c.isDigit)
  if ds.isEmpty then none else some (natOfDigits ds)

/-- Model of JS `parseInt(s, 10)`: skip leading whitespace, an optional
sign, then read the longest leading digit run; `none` models `NaN`.
(JS reads digits into a float; all inputs of interest are well below
2^53 so exact integers are a faithful model.) -/
def jsParseInt (s : String) : Option Int :=
  let cs := s.data.dropWhile (fun c => c.isWhitespace)
  match cs with
  | '-' :: rest => (leadingNat rest).map (fun n => -(n : Int))
  | '+' :: rest => (leadingNat rest).map (fun n => (n : Int))
  | _ => (leadingNat cs).map (fun n => (n : Int))

/-- Model of JS `String(n)` for an integral number. -/
def jsIntToString (n : Int) : String :=
  if n < 0 then "-" ++ Nat.repr n.natAbs else Nat.repr n.natAbs

/-- Split a character list at every occurrence of `sep`, keeping empty
segments, as JS `String.prototype.split` with a one-character separator
does (`"a..b".split(".") == ["a","","b"]`, `"".split(".") == [""]`). -/
def splitChar (sep : Char) : List Char → List (List Char)
  | [] => [[]]
  | c :: rest =>
    match splitChar sep rest with
    | [] => if c = sep then [[], []] else [[c]]
    | r :: rs => if c = sep then [] :: r :: rs else (c :: r) :: rs

/-- Model of JS `s.split(sep)` for a one-character separator. -/
def jsSplitOn (sep : Char) (s : String) : List String :=
  (splitChar sep s.data).map (fun cs => ⟨cs⟩)

/-- Model of JS `v.split("-", 2)` destructured into `[base, prerelease]`:
the split keeps only the first two segments of the full split, so the
second component is the text strictly between the first and the second
hyphen (or to the end when there is a single hyphen), and `none` when
the string has no hyphen (`undefined` in JS). -/
def jsSplit2 (s : String) : String × Option String :=
  match jsSplitOn '-' s with
  | [] => (s, none)
  | [b] => (b, none)
  | b :: p :: _ => (b, some p)

/-- JS truthiness of an optional string: `undefined` and `""` are falsy. -/
def truthy : Option String → Bool
  | none => false
  | some s => !(s == "")

/-- One base component: `parseInt(n, 10) || 0`
(`NaN` is falsy, so an unparseable component degrades to `0`;
`src/migrations/index.ts` lines 76-77). -/
def parseBasePart (s : String) : Int :=
  (jsParseInt s).getD 0

/-- `parseBase` from `src/migrations/index.ts` lines 75-77:
`v.split(".").map((n) => parseInt(n, 10) || 0)`. -/
def parseBase (v : String) : List Int :=
  (jsSplitOn '.' v).map parseBasePart

/-- The three-way comparison a JS `<` / `>` pair produces on a linear
order: `-1`, `0` or `1`. -/
def ltCmp {α : Type} [LinearOrder α] (a b : α) : Int :=
  if a < b then -1 else if b < a then 1 else 0

/-- Generic left-to-right comparison loop over two lists: first
position whose comparison is nonzero decides; a list that runs out
first is smaller; equal-length lists with all-zero comparisons are
equal. This is the shape of both element loops in `compareVersions`. -/
def lexCmpBy {α : Type} (cmp : α → α → Int) : List α → List α → Int
  | [], [] => 0
  | [], _ :: _ => -1
  | _ :: _, [] => 1
  | a :: as, b :: bs => if cmp a b = 0 then lexCmpBy cmp as bs else cmp a b

/-- Tail of the base-version loop once the left operand has run out:
the left value reads as `0` at every remaining index. -/
def cmpZerosLeft : List Int → Int
  | [] => 0
  | b :: bs => if (0 : Int) < b then -1 else if b < 0 then 1 else cmpZerosLeft bs

/-- Tail of the base-version loop once the right operand has run out:
the right value reads as `0` at every remaining index. -/
def cmpZerosRight : List Int → Int
  | [] => 0
  | a :: as => if a < 0 then -1 else if (0 : Int) < a then 1 else cmpZerosRight as

/-- The base-version loop of `compareVersions`
(`src/migrations/index.ts` lines 83-89): indices run to the longer
length and a missing entry reads as `0` (`aBaseParts[i] ?? 0`). -/
def cmpBaseLists : List Int → List Int → Int
  | [], ys => cmpZerosLeft ys
  | a :: as, [] => if a < 0 then -1 else if (0 : Int) < a then 1 else cmpZerosRight as
  | a :: as, b :: bs => if a < b then -1 else if b < a then 1 else cmpBaseLists as bs

/-- `!isNaN(parseInt(p, 10)) && String(parseInt(p, 10)) === p`
(`src/migrations/index.ts` lines 113-114): a pre-release field counts
as numeric exactly when it round-trips through `parseInt`/`String`,
i.e. when it is a canonical decimal numeral. -/
def jsIsCanonNum (s : String) : Bool :=
  match jsParseInt s with
  | some n => jsIntToString n == s
  | none => false

/-- The numeric value the code compares for a numeric field
(`parseInt(p, 10)`; only used under `jsIsCanonNum`). -/
def jsNumVal (s : String) : Int :=
  (jsParseInt s).getD 0

/-- One iteration of the pre-release field loop
(`src/migrations/index.ts` lines 111-130): numeric fields sort before
non-numeric ones, two numeric fields compare numerically, two
non-numeric fields compare as JS strings (code-unit lexicographic;
modelled on the character lists — identical on the ASCII inputs the
comparator receives). -/
def cmpPreField (aP bP : String) : Int :=
  let aIsNum := jsIsCanonNum aP
  let bIsNum := jsIsCanonNum bP
  if aIsNum && !bIsNum then -1
  else if !aIsNum && bIsNum then 1
  else if aIsNum && bIsNum then ltCmp (jsNumVal aP) (jsNumVal bP)
  else lexCmpBy ltCmp aP.data bP.data

/-- The pre-release loop of `compareVersions`
(`src/migrations/index.ts` lines 102-130): an exhausted list sorts
first, otherwise the first field whose comparison is nonzero decides. -/
def cmpPreLists : List String → List String → Int :=
  lexCmpBy cmpPreField

/-- The pre-release stage of `compareVersions`
(`src/migrations/index.ts` lines 92-130), applied once the bases are
equal: `!aPrerelease && bPrerelease` etc. with JS truthiness, then the
field loop over the suffixes split on `"."`. -/
def preCmpFull (p q : Option String) : Int :=
  if !(truthy p) && truthy q then 1
  else if truthy p && !(truthy q) then -1
  else if !(truthy p) && !(truthy q) then 0
  else cmpPreLists (jsSplitOn '.' (p.getD "")) (jsSplitOn '.' (q.getD ""))

/-- `compareVersions` from `src/migrations/index.ts` lines 70-132:
split each version on the first hyphen, compare the numeric bases
positionally (missing parts read as 0), and only if the bases tie
compare the pre-release suffixes. Returns -1, 0 or 1. -/
def compareVersions (a b : String) : Int :=
  let ap := jsSplit2 a
  let bp := jsSplit2 b
  let base := cmpBaseLists (parseBase ap.1) (parseBase bp.1)
  if base ≠ 0 then base else preCmpFull ap.2 bp.2

/-- Insert a version into a list sorted by `compareVersions`, after
any element comparing less-or-equal: with `sortVersions` this is a
stable insertion sort, a faithful model of JS `Array.prototype.sort`
with a consistent comparator (ECMA-262 guarantees a stable, sorted
result). -/
def insertVersion (v : String) : List String → List String
  | [] => [v]
  | w :: ws => if compareVersions v w ≤ 0 then v :: w :: ws else w :: insertVersion v ws

/-- `versions.sort(compareVersions)` (`src/migrations/index.ts` line 148). -/
def sortVersions : List String → List String
  | [] => []
  | v :: vs => insertVersion v (sortVersions vs)

/-- The two migration kinds (`type` field of a manifest item). -/
inductive MigrationType : Type
  | rename : MigrationType
  | delete : MigrationType
deriving DecidableEq

/-- Modelled from the spec: `MigrationItem` of `src/types/migration.ts`
(not shipped under src/) — `type` ∈ {rename, delete}, a source path,
and an optional destination path carried by renames. -/
structure MigrationItem : Type where
  type : MigrationType
  from_ : String
  to_ : Option String
deriving DecidableEq

/-- Modelled from the spec: `MigrationManifest` of
`src/types/migration.ts` (not shipped under src/) — one version's
payload with the fields listed in spec §6. -/
structure MigrationManifest : Type where
  version : String
  migrations : List MigrationItem
  changelog : Option String
  breaking : Bool
  recommendMigrate : Bool
  migrationGuide : Option String
  aiInstructions : Option String
deriving DecidableEq

/-- The filter body of `getMigrationsForVersion`
(`src/migrations/index.ts` lines 151-155): strictly after `fromV`,
at or before `toV`. -/
def applicableFilter (fromV toV v : String) : Bool :=
  decide (0 < compareVersions v fromV) && decide (compareVersions v toV ≤ 0)

/-- The sorted, filtered version list `applicableVersions` of
`src/migrations/index.ts` lines 148-155, with the manifest registry
(a JS object: string keys in insertion order) passed explicitly. -/
def appVersions (manifests : List (String × MigrationManifest))
    (fromV toV : String) : List String :=
  (sortVersions (manifests.map Prod.fst)).filter (applicableFilter fromV toV)

/-- `getMigrationsForVersion` from `src/migrations/index.ts` lines
141-167: concatenate the migration lists of the applicable manifests
in sorted version order (`if (manifest)` becomes the `Option` match). -/
def getMigrationsForVersion (manifests : List (String × MigrationManifest))
    (fromV toV : String) : List MigrationItem :=
  (appVersions manifests fromV toV).flatMap (fun v =>
    match manifests.lookup v with
    | some m => m.migrations
    | none => [])

/-- Model of JS `f.endsWith(".json")`. -/
def jsEndsWith (s suffixStr : String) : Bool :=
  suffixStr.data.isSuffixOf s.data

/-- Assignment `manifests[key] = value` on a JS object modelled as an
association list: an existing key keeps its position and is updated,
a new key is appended. -/
def objInsert (m : List (String × MigrationManifest))
    (k : String) (v : MigrationManifest) : List (String × MigrationManifest) :=
  if m.any (fun e => e.1 == k) then
    m.map (fun e => if e.1 == k then (k, v) else e)
  else m ++ [(k, v)]

/-- One iteration of the `for (const file of files)` loop of
`loadManifests` (`src/migrations/index.ts` lines 40-55): `parse`
models `JSON.parse` followed by the structural cast, with `none` for
a thrown parse error, which the `catch` turns into a skip-with-warning;
a manifest with a falsy `version` is not indexed. -/
def loadManifestStep (parse : String → Option MigrationManifest)
    (acc : List (String × MigrationManifest)) (file : String × String) :
    List (String × MigrationManifest) :=
  match parse file.2 with
  | some m => if m.version ≠ "" then objInsert acc m.version m else acc
  | none => acc

/-- `loadManifests` from `src/migrations/index.ts` lines 25-58, with
the directory listing passed as (file name, file content) pairs and
`JSON.parse` passed as a function: keep the `.json` files, fold the
per-file loop over them starting from the empty registry. -/
def loadManifests (files : List (String × String))
    (parse : String → Option MigrationManifest) :
    List (String × MigrationManifest) :=
  (files.filter (fun f => jsEndsWith f.1 ".json")).foldl (loadManifestStep parse) []

/-! Concrete fixtures used by the spec's worked examples: a manifest at
0.2.0 carrying one rename and a manifest at 0.3.0 carrying one delete. -/

/-- The single rename item of the 0.2.0 fixture manifest. -/
def renameItem : MigrationItem :=
  ⟨MigrationType.rename, "old.md", some "new.md"⟩

/-- The single delete item of the 0.3.0 fixture manifest. -/
def deleteItem : MigrationItem :=
  ⟨MigrationType.delete, "gone.md", none⟩

/-- Fixture manifest for version 0.2.0 (one rename). -/
def manifest02 : MigrationManifest :=
  ⟨"0.2.0", [renameItem], none, false, false, none, none⟩

/-- Fixture manifest for version 0.3.0 (one delete). -/
def manifest03 : MigrationManifest :=
  ⟨"0.3.0", [deleteItem], none, false, false, none, none⟩

/-- The loaded registry holding the two fixture manifests. -/
def demoManifests : List (String × MigrationManifest) :=
  [("0.2.0", manifest02), ("0.3.0", manifest03)]

/-! ## Lawfulness of the three-way comparisons

`compareVersions` is built from nested left-to-right comparison loops.
The lemmas below establish, for each layer, the three facts every
layer needs from the one below it: the comparison is antisymmetric
(`cmp a b = -cmp b a`), a zero comparison identifies its arguments,
and `cmp · · ≤ 0` is transitive. -/

theorem ltCmp_le_iff {α : Type} [LinearOrder α] {a b : α} :
    ltCmp a b ≤ 0 ↔ a ≤ b := by
  unfold ltCmp
  rcases lt_trichotomy a b with h | h | h
  · simp [h, le_of_lt h]
  · subst h
    simp [lt_irrefl]
  · simp [lt_asymm h, h, not_le.mpr h]

theorem ltCmp_antisym {α : Type} [LinearOrder α] (a b : α) :
    ltCmp a b = -ltCmp b a := by
  unfold ltCmp
  rcases lt_trichotomy a b with h | h | h
  · simp [h, lt_asymm h]
  · subst h
    simp [lt_irrefl]
  · simp [h, lt_asymm h]

theorem ltCmp_self {α : Type} [LinearOrder α] (a : α) : ltCmp a a = 0 := by
  simp [ltCmp, lt_irrefl]

theorem ltCmp_eq_zero {α : Type} [LinearOrder α] {a b : α}
    (h : ltCmp a b = 0) : a = b := by
  unfold ltCmp at h
  by_cases h1 : a < b
  · simp [h1] at h
  · by_cases h2 : b < a
    · simp [h1, h2] at h
    · exact le_antisymm (not_lt.mp h2) (not_lt.mp h1)

theorem ltCmp_trans_le {α : Type} [LinearOrder α] {a b c : α}
    (h1 : ltCmp a b ≤ 0) (h2 : ltCmp b c ≤ 0) : ltCmp a c ≤ 0 :=
  ltCmp_le_iff.mpr (le_trans (ltCmp_le_iff.mp h1) (ltCmp_le_iff.mp h2))

theorem lexCmpBy_antisym {α : Type} (cmp : α → α → Int)
    (hanti : ∀ a b, cmp a b = -cmp b a) :
    ∀ x y, lexCmpBy cmp x y = -lexCmpBy cmp y x := by
  intro x
  induction x with
  | nil => intro y; cases y <;> simp [lexCmpBy]
  | cons a as ih =>
    intro y
    cases y with
    | nil => simp [lexCmpBy]
    | cons b bs =>
      simp only [lexCmpBy]
      by_cases h : cmp a b = 0
      · have h' : cmp b a = 0 := by have := hanti a b; omega
        simp [h, h', ih bs]
      · have h' : ¬ cmp b a = 0 := by have := hanti a b; omega
        simp [h, h', hanti a b]

theorem lexCmpBy_self {α : Type} (cmp : α → α → Int)
    (hself : ∀ a, cmp a a = 0) :
    ∀ x, lexCmpBy cmp x x = 0 := by
  intro x
  induction x with
  | nil => simp [lexCmpBy]
  | cons a as ih => simp [lexCmpBy, hself a, ih]

theorem lexCmpBy_eq_zero {α : Type} (cmp : α → α → Int)
    (heq : ∀ a b, cmp a b = 0 → a = b) :
    ∀ x y, lexCmpBy cmp x y = 0 → x = y := by
  intro x
  induction x with
  | nil =>
    intro y h
    cases y with
    | nil => rfl
    | cons b bs => simp [lexCmpBy] at h
  | cons a as ih =>
    intro y h
    cases y with
    | nil => simp [lexCmpBy] at h
    | cons b bs =>
      simp only [lexCmpBy] at h
      by_cases hab : cmp a b = 0
      · rw [heq a b hab, ih bs (by simpa [hab] using h)]
      · simp [hab] at h

theorem lexCmpBy_trans_le {α : Type} (cmp : α → α → Int)
    (hanti : ∀ a b, cmp a b = -cmp b a)
    (heq : ∀ a b, cmp a b = 0 → a = b)
    (htrans : ∀ a b c, cmp a b ≤ 0 → cmp b c ≤ 0 → cmp a c ≤ 0) :
    ∀ x y z, lexCmpBy cmp x y ≤ 0 → lexCmpBy cmp y z ≤ 0 →
      lexCmpBy cmp x z ≤ 0 := by
  intro x
  induction x with
  | nil =>
    intro y z _ _
    cases z <;> simp [lexCmpBy]
  | cons a as ih =>
    intro y z h1 h2
    cases y with
    | nil => simp [lexCmpBy] at h1
    | cons b bs =>
      cases z with
      | nil => simp [lexCmpBy] at h2
      | cons c cs =>
        simp only [lexCmpBy] at h1 h2 ⊢
        by_cases hab : cmp a b = 0
        · have hb : a = b := heq a b hab
          subst hb
          by_cases hac : cmp a c = 0
          · simp only [hac, if_pos rfl]
            simp only [hab, if_pos rfl] at h1
            simp only [hac, if_pos rfl] at h2
            exact ih bs cs h1 h2
          · simp only [hac, if_neg hac]
            simpa [hac] using h2
        · rw [if_neg hab] at h1
          have hablt : cmp a b < 0 := lt_of_le_of_ne h1 hab
          by_cases hbc : cmp b c = 0
          · have hc : b = c := heq b c hbc
            subst hc
            rw [if_neg hab]
            exact h1
          · rw [if_neg hbc] at h2
            have hbclt : cmp b c < 0 := lt_of_le_of_ne h2 hbc
            have hacle : cmp a c ≤ 0 := htrans a b c h1 h2
            have hacne : cmp a c ≠ 0 := by
              intro h0
              have hceq : a = c := heq a c h0
              subst hceq
              have := hanti a b
              omega
            rw [if_neg hacne]
            exact hacle

/-- Pad a base-part list with zeros on the right up to length `n`:
the explicit form of the `aBaseParts[i] ?? 0` reads of the base loop. -/
def padTo (n : Nat) (l : List Int) : List Int :=
  l ++ List.replicate (n - l.length) 0

theorem padTo_nil (n : Nat) : padTo n [] = List.replicate n 0 := by
  simp [padTo]

theorem padTo_cons (n : Nat) (a : Int) (as : List Int) :
    padTo (n + 1) (a :: as) = a :: padTo n as := by
  simp [padTo, Nat.succ_sub_succ]

theorem cmpBaseLists_nil_right : ∀ xs : List Int, cmpBaseLists xs [] = cmpZerosRight xs := by
  intro xs
  cases xs with
  | nil => rfl
  | cons a as => rfl

/-- The base loop equals the plain left-to-right comparison of the two
lists once both are padded with zeros to a common length. -/
theorem cmpBaseLists_eq_lex :
    ∀ (n : Nat) (x y : List Int), x.length ≤ n → y.length ≤ n →
      cmpBaseLists x y = lexCmpBy ltCmp (padTo n x) (padTo n y) := by
  intro n
  induction n with
  | zero =>
    intro x y hx hy
    rw [List.length_eq_zero.mp (Nat.le_zero.mp hx),
        List.length_eq_zero.mp (Nat.le_zero.mp hy)]
    simp [padTo, cmpBaseLists, cmpZerosLeft, lexCmpBy]
  | succ n ih =>
    intro x y hx hy
    cases x with
    | nil =>
      cases y with
      | nil =>
        rw [padTo_nil]
        have h0 : lexCmpBy ltCmp (List.replicate (n + 1) (0 : Int))
            (List.replicate (n + 1) (0 : Int)) = 0 :=
          lexCmpBy_self ltCmp ltCmp_self _
        rw [h0]
        rfl
      | cons b bs =>
        have hbs : bs.length ≤ n := by
          simp only [List.length_cons] at hy
          omega
        rw [padTo_nil, List.replicate_succ, padTo_cons]
        show cmpZerosLeft (b :: bs) = _
        rcases lt_trichotomy (0 : Int) b with h | h | h
        · have hne : ltCmp (0 : Int) b ≠ 0 := by simp [ltCmp, h]
          simp [cmpZerosLeft, lexCmpBy, hne, ltCmp, h]
        · subst h
          have hz : ltCmp (0 : Int) 0 = 0 := ltCmp_self 0
          simp only [lexCmpBy, hz, if_pos rfl]
          have : cmpZerosLeft ([] : List Int) = 0 := rfl
          simp only [cmpZerosLeft, lt_irrefl, if_neg (lt_irrefl 0)]
          rw [← padTo_nil, ← ih [] bs (by simp) hbs]
          rfl
        · have hne : ltCmp (0 : Int) b ≠ 0 := by simp [ltCmp, h, lt_asymm h]
          simp [cmpZerosLeft, lexCmpBy, hne, ltCmp, h, lt_asymm h]
    | cons a as =>
      have has : as.length ≤ n := by
        simp only [List.length_cons] at hx
        omega
      cases y with
      | nil =>
        rw [padTo_nil, List.replicate_succ, padTo_cons]
        show (if a < 0 then (-1 : Int) else if (0 : Int) < a then 1 else cmpZerosRight as) = _
        rcases lt_trichotomy a (0 : Int) with h | h | h
        · have hne : ltCmp a (0 : Int) ≠ 0 := by simp [ltCmp, h]
          simp [lexCmpBy, hne, ltCmp, h]
        · subst h
          have hz : ltCmp (0 : Int) 0 = 0 := ltCmp_self 0
          simp only [lexCmpBy, hz, if_pos rfl, lt_irrefl, if_neg (lt_irrefl 0)]
          rw [← padTo_nil, ← ih as [] has (by simp), cmpBaseLists_nil_right]
          simp
        · have hne : ltCmp a (0 : Int) ≠ 0 := by simp [ltCmp, h, lt_asymm h]
          simp [lexCmpBy, hne, ltCmp, h, lt_asymm h]
      | cons b bs =>
        have hbs : bs.length ≤ n := by
          simp only [List.length_cons] at hy
          omega
        rw [padTo_cons, padTo_cons]
        show (if a < b then (-1 : Int) else if b < a then 1 else cmpBaseLists as bs) = _
        rcases lt_trichotomy a b with h | h | h
        · have hne : ltCmp a b ≠ 0 := by simp [ltCmp, h]
          simp [lexCmpBy, hne, ltCmp, h]
        · subst h
          have hz : ltCmp a a = 0 := ltCmp_self a
          simp only [lexCmpBy, hz, if_pos rfl, lt_irrefl, if_neg (lt_irrefl a)]
          exact ih as bs has hbs
        · have hne : ltCmp a b ≠ 0 := by simp [ltCmp, h, lt_asymm h]
          simp [lexCmpBy, hne, ltCmp, h, lt_asymm h]

theorem cmpBaseLists_antisym (x y : List Int) :
    cmpBaseLists x y = -cmpBaseLists y x := by
  have hx := le_max_left x.length y.length
  have hy := le_max_right x.length y.length
  rw [cmpBaseLists_eq_lex (max x.length y.length) x y hx hy,
      cmpBaseLists_eq_lex (max x.length y.length) y x hy hx]
  exact lexCmpBy_antisym ltCmp ltCmp_antisym _ _

theorem cmpBaseLists_trans_le {x y z : List Int}
    (h1 : cmpBaseLists x y ≤ 0) (h2 : cmpBaseLists y z ≤ 0) :
    cmpBaseLists x z ≤ 0 := by
  have hx : x.length ≤ max (max x.length y.length) z.length := by omega
  have hy : y.length ≤ max (max x.length y.length) z.length := by omega
  have hz : z.length ≤ max (max x.length y.length) z.length := by omega
  rw [cmpBaseLists_eq_lex _ x y hx hy] at h1
  rw [cmpBaseLists_eq_lex _ y z hy hz] at h2
  rw [cmpBaseLists_eq_lex _ x z hx hz]
  exact lexCmpBy_trans_le ltCmp ltCmp_antisym (fun a b => ltCmp_eq_zero)
    (fun a b c => ltCmp_trans_le) _ _ _ h1 h2

theorem cmpBaseLists_pad_eq {x y : List Int} (h : cmpBaseLists x y = 0)
    (n : Nat) (hx : x.length ≤ n) (hy : y.length ≤ n) :
    padTo n x = padTo n y := by
  refine lexCmpBy_eq_zero ltCmp (fun a b => ltCmp_eq_zero) _ _ ?_
  rw [← cmpBaseLists_eq_lex n x y hx hy]
  exact h

theorem cmpBaseLists_congr_right {x y : List Int}
    (h : cmpBaseLists x y = 0) (z : List Int) :
    cmpBaseLists z x = cmpBaseLists z y := by
  have hx : x.length ≤ max (max x.length y.length) z.length := by omega
  have hy : y.length ≤ max (max x.length y.length) z.length := by omega
  have hz : z.length ≤ max (max x.length y.length) z.length := by omega
  rw [cmpBaseLists_eq_lex _ z x hz hx, cmpBaseLists_eq_lex _ z y hz hy,
      cmpBaseLists_pad_eq h _ hx hy]

theorem cmpBaseLists_congr_left {x y : List Int}
    (h : cmpBaseLists x y = 0) (z : List Int) :
    cmpBaseLists x z = cmpBaseLists y z := by
  have hx : x.length ≤ max (max x.length y.length) z.length := by omega
  have hy : y.length ≤ max (max x.length y.length) z.length := by omega
  have hz : z.length ≤ max (max x.length y.length) z.length := by omega
  rw [cmpBaseLists_eq_lex _ x z hx hz, cmpBaseLists_eq_lex _ y z hy hz,
      cmpBaseLists_pad_eq h _ hx hy]

theorem jsIsCanonNum_spec {s : String} (h : jsIsCanonNum s = true) :
    ∃ n : Int, jsParseInt s = some n ∧ jsIntToString n = s := by
  unfold jsIsCanonNum at h
  cases hp : jsParseInt s with
  | none => rw [hp] at h; simp at h
  | some n =>
    rw [hp] at h
    exact ⟨n, rfl, eq_of_beq h⟩

theorem jsNumVal_of_parse {s : String} {n : Int} (h : jsParseInt s = some n) :
    jsNumVal s = n := by
  unfold jsNumVal
  rw [h]
  rfl

theorem cmpPreField_antisym (aP bP : String) :
    cmpPreField aP bP = -cmpPreField bP aP := by
  unfold cmpPreField
  cases h1 : jsIsCanonNum aP <;> cases h2 : jsIsCanonNum bP <;> simp [h1, h2]
  · exact lexCmpBy_antisym ltCmp ltCmp_antisym _ _
  · exact ltCmp_antisym _ _

theorem cmpPreField_eq_zero {x y : String} (h : cmpPreField x y = 0) :
    x = y := by
  unfold cmpPreField at h
  cases h1 : jsIsCanonNum x <;> cases h2 : jsIsCanonNum y <;> simp [h1, h2] at h
  · have hdata : x.data = y.data :=
      lexCmpBy_eq_zero ltCmp (fun a b => ltCmp_eq_zero) _ _ h
    exact congrArg String.mk hdata
  · obtain ⟨n, hn, hs⟩ := jsIsCanonNum_spec h1
    obtain ⟨m, hm, hs'⟩ := jsIsCanonNum_spec h2
    have hv : jsNumVal x = jsNumVal y := ltCmp_eq_zero h
    rw [jsNumVal_of_parse hn, jsNumVal_of_parse hm] at hv
    rw [← hs, ← hs', hv]

theorem cmpPreField_trans_le {x y z : String}
    (h1 : cmpPreField x y ≤ 0) (h2 : cmpPreField y z ≤ 0) :
    cmpPreField x z ≤ 0 := by
  unfold cmpPreField at h1 h2 ⊢
  cases hx : jsIsCanonNum x <;> cases hy : jsIsCanonNum y <;>
    cases hz : jsIsCanonNum z <;> simp [hx, hy, hz] at h1 h2 ⊢
  · exact lexCmpBy_trans_le ltCmp ltCmp_antisym (fun a b => ltCmp_eq_zero)
      (fun a b c => ltCmp_trans_le) _ _ _ h1 h2
  · exact ltCmp_trans_le h1 h2

theorem cmpPreLists_antisym (x y : List String) :
    cmpPreLists x y = -cmpPreLists y x :=
  lexCmpBy_antisym cmpPreField cmpPreField_antisym x y

theorem cmpPreLists_eq_zero {x y : List String} (h : cmpPreLists x y = 0) :
    x = y :=
  lexCmpBy_eq_zero cmpPreField (fun _ _ => cmpPreField_eq_zero) x y h

theorem cmpPreLists_trans_le {x y z : List String}
    (h1 : cmpPreLists x y ≤ 0) (h2 : cmpPreLists y z ≤ 0) :
    cmpPreLists x z ≤ 0 :=
  lexCmpBy_trans_le cmpPreField cmpPreField_antisym
    (fun _ _ => cmpPreField_eq_zero) (fun _ _ _ => cmpPreField_trans_le)
    x y z h1 h2

theorem preCmpFull_antisym (p q : Option String) :
    preCmpFull p q = -preCmpFull q p := by
  unfold preCmpFull
  cases hp : truthy p <;> cases hq : truthy q <;> simp [hp, hq]
  exact cmpPreLists_antisym _ _

theorem preCmpFull_trans_le {p q r : Option String}
    (h1 : preCmpFull p q ≤ 0) (h2 : preCmpFull q r ≤ 0) :
    preCmpFull p r ≤ 0 := by
  unfold preCmpFull at h1 h2 ⊢
  cases hp : truthy p <;> cases hq : truthy q <;>
    cases hr : truthy r <;> simp [hp, hq, hr] at h1 h2 ⊢
  exact cmpPreLists_trans_le h1 h2

theorem preCmpFull_congr_right {p q : Option String}
    (h : preCmpFull p q = 0) (r : Option String) :
    preCmpFull r p = preCmpFull r q := by
  unfold preCmpFull at h ⊢
  cases hp : truthy p <;> cases hq : truthy q <;> cases hr : truthy r <;>
    simp [hp, hq, hr] at h ⊢
  rw [cmpPreLists_eq_zero h]

/-- `compareVersions` unfolded to its two stages. -/
theorem compareVersions_def (a b : String) :
    compareVersions a b =
      if cmpBaseLists (parseBase (jsSplit2 a).1) (parseBase (jsSplit2 b).1) ≠ 0
      then cmpBaseLists (parseBase (jsSplit2 a).1) (parseBase (jsSplit2 b).1)
      else preCmpFull (jsSplit2 a).2 (jsSplit2 b).2 := rfl

theorem compareVersions_antisym (a b : String) :
    compareVersions a b = -compareVersions b a := by
  rw [compareVersions_def, compareVersions_def]
  have hba : cmpBaseLists (parseBase (jsSplit2 b).1) (parseBase (jsSplit2 a).1)
      = -cmpBaseLists (parseBase (jsSplit2 a).1) (parseBase (jsSplit2 b).1) :=
    cmpBaseLists_antisym _ _
  by_cases h : cmpBaseLists (parseBase (jsSplit2 a).1) (parseBase (jsSplit2 b).1) = 0
  · rw [hba, h]
    simp
    exact preCmpFull_antisym _ _
  · have h' : cmpBaseLists (parseBase (jsSplit2 b).1) (parseBase (jsSplit2 a).1) ≠ 0 := by
      rw [hba]
      omega
    rw [if_pos h, if_pos h', hba]
    omega

theorem compareVersions_self (a : String) : compareVersions a a = 0 := by
  have := compareVersions_antisym a a
  omega

theorem compareVersions_trans_le {a b c : String}
    (h1 : compareVersions a b ≤ 0) (h2 : compareVersions b c ≤ 0) :
    compareVersions a c ≤ 0 := by
  rw [compareVersions_def] at h1 h2 ⊢
  by_cases hab : cmpBaseLists (parseBase (jsSplit2 a).1) (parseBase (jsSplit2 b).1) = 0
  · rw [if_neg (by simpa using hab)] at h1
    by_cases hbc : cmpBaseLists (parseBase (jsSplit2 b).1) (parseBase (jsSplit2 c).1) = 0
    · rw [if_neg (by simpa using hbc)] at h2
      have hac : cmpBaseLists (parseBase (jsSplit2 a).1) (parseBase (jsSplit2 c).1) = 0 := by
        rw [cmpBaseLists_congr_right hbc _] at hab
        exact hab
      rw [if_neg (by simpa using hac)]
      exact preCmpFull_trans_le h1 h2
    · rw [if_pos hbc] at h2
      have hac : cmpBaseLists (parseBase (jsSplit2 a).1) (parseBase (jsSplit2 c).1)
          = cmpBaseLists (parseBase (jsSplit2 b).1) (parseBase (jsSplit2 c).1) :=
        cmpBaseLists_congr_left hab _
      have hacne : cmpBaseLists (parseBase (jsSplit2 a).1) (parseBase (jsSplit2 c).1) ≠ 0 := by
        rw [hac]
        exact hbc
      rw [if_pos hacne, hac]
      exact h2
  · rw [if_pos hab] at h1
    by_cases hbc : cmpBaseLists (parseBase (jsSplit2 b).1) (parseBase (jsSplit2 c).1) = 0
    · have hac : cmpBaseLists (parseBase (jsSplit2 a).1) (parseBase (jsSplit2 c).1)
          = cmpBaseLists (parseBase (jsSplit2 a).1) (parseBase (jsSplit2 b).1) :=
        (cmpBaseLists_congr_right hbc _).symm
      have hacne : cmpBaseLists (parseBase (jsSplit2 a).1) (parseBase (jsSplit2 c).1) ≠ 0 := by
        rw [hac]
        exact hab
      rw [if_pos hacne, hac]
      exact h1
    · rw [if_pos hbc] at h2
      have hablt : cmpBaseLists (parseBase (jsSplit2 a).1) (parseBase (jsSplit2 b).1) < 0 :=
        lt_of_le_of_ne h1 hab
      have hbclt : cmpBaseLists (parseBase (jsSplit2 b).1) (parseBase (jsSplit2 c).1) < 0 :=
        lt_of_le_of_ne h2 hbc
      have hacle : cmpBaseLists (parseBase (jsSplit2 a).1) (parseBase (jsSplit2 c).1) ≤ 0 :=
        cmpBaseLists_trans_le h1 h2
      have hacne : cmpBaseLists (parseBase (jsSplit2 a).1) (parseBase (jsSplit2 c).1) ≠ 0 := by
        intro h0
        have := cmpBaseLists_congr_left h0 (parseBase (jsSplit2 b).1)
        have hanti := cmpBaseLists_antisym (parseBase (jsSplit2 a).1) (parseBase (jsSplit2 b).1)
        have hanti' := cmpBaseLists_antisym (parseBase (jsSplit2 c).1) (parseBase (jsSplit2 b).1)
        omega
      rw [if_pos hacne]
      exact hacle

theorem compareVersions_congr_right {x y : String}
    (h : compareVersions x y = 0) (z : String) :
    compareVersions z x = compareVersions z y := by
  rw [compareVersions_def] at h
  by_cases hb : cmpBaseLists (parseBase (jsSplit2 x).1) (parseBase (jsSplit2 y).1) = 0
  · rw [if_neg (by simpa using hb)] at h
    rw [compareVersions_def, compareVersions_def,
        cmpBaseLists_congr_right hb (parseBase (jsSplit2 z).1),
        preCmpFull_congr_right h (jsSplit2 z).2]
  · rw [if_pos hb] at h
    exact absurd h hb

theorem compareVersions_le_total (a b : String) :
    compareVersions a b ≤ 0 ∨ compareVersions b a ≤ 0 := by
  have := compareVersions_antisym a b
  omega

/-! ## Sorting by the comparator -/

theorem insertVersion_perm (v : String) :
    ∀ l, (insertVersion v l).Perm (v :: l) := by
  intro l
  induction l with
  | nil => exact List.Perm.refl _
  | cons w ws ih =>
    unfold insertVersion
    by_cases h : compareVersions v w ≤ 0
    · rw [if_pos h]
    · rw [if_neg h]
      exact (List.Perm.cons w ih).trans (List.Perm.swap v w ws)

theorem insertVersion_pairwise {l : List String}
    (h : l.Pairwise (fun u w => compareVersions u w ≤ 0)) (v : String) :
    (insertVersion v l).Pairwise (fun u w => compareVersions u w ≤ 0) := by
  induction l with
  | nil => simp [insertVersion]
  | cons w ws ih =>
    rcases List.pairwise_cons.mp h with ⟨hw, hws⟩
    unfold insertVersion
    by_cases hvw : compareVersions v w ≤ 0
    · rw [if_pos hvw]
      refine List.pairwise_cons.mpr ⟨?_, h⟩
      intro x hx
      rcases List.mem_cons.mp hx with rfl | hx'
      · exact hvw
      · exact compareVersions_trans_le hvw (hw x hx')
    · rw [if_neg hvw]
      refine List.pairwise_cons.mpr ⟨?_, ih hws⟩
      intro x hx
      have hx' := (insertVersion_perm v ws).mem_iff.mp hx
      rcases List.mem_cons.mp hx' with hxv | hx''
      · have hanti := compareVersions_antisym v w
        subst hxv
        omega
      · exact hw x hx''

theorem sortVersions_perm : ∀ l : List String, (sortVersions l).Perm l := by
  intro l
  induction l with
  | nil => exact List.Perm.refl _
  | cons v vs ih => exact (insertVersion_perm v (sortVersions vs)).trans (ih.cons v)

theorem sortVersions_pairwise :
    ∀ l : List String, (sortVersions l).Pairwise (fun u w => compareVersions u w ≤ 0) := by
  intro l
  induction l with
  | nil => simp [sortVersions]
  | cons v vs ih => exact insertVersion_pairwise ih v

theorem appVersions_perm (manifests : List (String × MigrationManifest))
    (fromV toV : String) :
    (appVersions manifests fromV toV).Perm
      ((manifests.map Prod.fst).filter (applicableFilter fromV toV)) :=
  (sortVersions_perm (manifests.map Prod.fst)).filter _

theorem appVersions_pairwise (manifests : List (String × MigrationManifest))
    (fromV toV : String) :
    (appVersions manifests fromV toV).Pairwise (fun u w => compareVersions u w ≤ 0) :=
  (sortVersions_pairwise (manifests.map Prod.fst)).sublist (List.filter_sublist _)

/-! ## Claims about the migration plan -/

/-- C1: for every loaded manifest set and every pair of versions,
`getMigrationsForVersion` returns the concatenation of the migration
lists of exactly the manifests whose version is strictly after `fromV`
and at or before `toV` (each manifest's items in authored order), the
traversal list being a permutation of the applicable versions arranged
in ascending comparator order; concretely, with the fixture manifests
at 0.2.0 (one rename) and 0.3.0 (one delete), the plan from 0.1.0 to
0.3.0 is exactly [rename, delete]. -/
theorem C1_plan_is_sorted_applicable_concat :
    (∀ (manifests : List (String × MigrationManifest)) (fromV toV : String),
      getMigrationsForVersion manifests fromV toV
          = (appVersions manifests fromV toV).flatMap (fun v =>
              match manifests.lookup v with
              | some m => m.migrations
              | none => [])
        ∧ (appVersions manifests fromV toV).Perm
            ((manifests.map Prod.fst).filter (applicableFilter fromV toV))
        ∧ (appVersions manifests fromV toV).Pairwise
            (fun u w => compareVersions u w ≤ 0))
    ∧ getMigrationsForVersion demoManifests "0.1.0" "0.3.0" = [renameItem, deleteItem] := by
  constructor
  · intro manifests fromV toV
    exact ⟨rfl, appVersions_perm manifests fromV toV, appVersions_pairwise manifests fromV toV⟩
  · decide

/-- No version can be strictly after `fromV` yet at or before `toV`
when `fromV` compares at or above `toV`, so the plan is empty. -/
theorem plan_empty_of_no_upgrade
    (manifests : List (String × MigrationManifest)) (fromV toV : String)
    (hge : 0 ≤ compareVersions fromV toV) :
    getMigrationsForVersion manifests fromV toV = [] := by
  unfold getMigrationsForVersion
  have happ : appVersions manifests fromV toV = [] := by
    unfold appVersions
    apply List.filter_eq_nil_iff.mpr
    intro v _
    unfold applicableFilter
    simp only [Bool.and_eq_true, decide_eq_true_eq, not_and]
    intro hvf hvt
    have hfv : compareVersions fromV v ≤ 0 := by
      have := compareVersions_antisym v fromV
      omega
    have hft : compareVersions fromV toV ≤ 0 := compareVersions_trans_le hfv hvt
    have hft0 : compareVersions fromV toV = 0 := le_antisymm hft hge
    have := compareVersions_congr_right hft0 v
    omega
  rw [happ]
  rfl

/-- C2: whenever `compareVersions fromV toV ≥ 0` (equal versions or a
downgrade request), `getMigrationsForVersion` returns the empty list
for every loaded manifest set — no error, no reverse migrations. -/
theorem C2_equal_or_downgrade_empty_plan :
    ∀ (manifests : List (String × MigrationManifest)) (fromV toV : String),
      0 ≤ compareVersions fromV toV →
      getMigrationsForVersion manifests fromV toV = [] :=
  plan_empty_of_no_upgrade

/-- Witness for C2 at a concrete equal-version pair. -/
theorem C2_equal_or_downgrade_empty_plan_witness :
    getMigrationsForVersion demoManifests "1.0.0" "1.0.0" = [] :=
  C2_equal_or_downgrade_empty_plan demoManifests "1.0.0" "1.0.0" (by decide)

/-! ## Claims about the registry loader -/

/-- A toy stand-in for `JSON.parse` + cast: recognizes one payload,
fails (throws) on everything else. -/
def demoParse : String → Option MigrationManifest :=
  fun s => if s = "manifest-0.2.0" then some manifest02 else none

/-- A directory listing with one valid and one unparseable file. -/
def demoFiles : List (String × String) :=
  [("0.2.0.json", "manifest-0.2.0"), ("broken.json", "not json at all")]

/-- C3: a candidate file whose parse fails is skipped without
disturbing the rest of the load — removing it from the directory
listing leaves the resulting registry unchanged, wherever it sits in
the listing; concretely, one valid plus one unparseable file yield a
registry holding exactly the valid entry. -/
theorem C3_bad_manifest_never_blocks_load :
    (∀ (pre suf : List (String × String)) (name content : String)
        (parse : String → Option MigrationManifest),
      parse content = none →
      loadManifests (pre ++ (name, content) :: suf) parse
        = loadManifests (pre ++ suf) parse)
    ∧ loadManifests demoFiles demoParse = [("0.2.0", manifest02)] := by
  constructor
  · intro pre suf name content parse hbad
    unfold loadManifests
    rw [List.filter_append, List.filter_append, List.filter_cons]
    by_cases hj : jsEndsWith name ".json" = true
    · simp only [hj, if_true]
      rw [List.foldl_append, List.foldl_append, List.foldl_cons]
      have hstep : ∀ acc, loadManifestStep parse acc (name, content) = acc := by
        intro acc
        unfold loadManifestStep
        rw [hbad]
      rw [hstep]
    · simp only [Bool.not_eq_true] at hj
      simp only [hj, Bool.false_eq_true, if_false]
  · decide

/-- Witness for C3: dropping the unparseable file from the listing
does not change the loaded registry. -/
theorem C3_bad_manifest_never_blocks_load_witness :
    loadManifests [("broken.json", "not json at all")] demoParse
      = loadManifests [] demoParse :=
  C3_bad_manifest_never_blocks_load.1 [] [] "broken.json" "not json at all"
    demoParse (by decide)

/-! ## Claims about the comparator -/

/-- C4: the comparator is antisymmetric on all string inputs, and
therefore reflexively zero. -/
theorem C4_antisymmetry_and_reflexivity :
    (∀ a b : String, compareVersions a b = -compareVersions b a)
    ∧ ∀ a : String, compareVersions a a = 0 :=
  ⟨compareVersions_antisym, compareVersions_self⟩

/-- C5: with equal numeric bases, a version carrying a (nonempty)
pre-release suffix sorts strictly below one carrying none, and two
versions both lacking a suffix compare equal; concretely
`compareVersions "1.0.0-beta.1" "1.0.0" = -1`. -/
theorem C5_release_beats_prerelease :
    (∀ a b : String,
      cmpBaseLists (parseBase (jsSplit2 a).1) (parseBase (jsSplit2 b).1) = 0 →
        (truthy (jsSplit2 a).2 = true → truthy (jsSplit2 b).2 = false →
          compareVersions a b = -1)
        ∧ (truthy (jsSplit2 a).2 = false → truthy (jsSplit2 b).2 = true →
          compareVersions a b = 1)
        ∧ (truthy (jsSplit2 a).2 = false → truthy (jsSplit2 b).2 = false →
          compareVersions a b = 0))
    ∧ compareVersions "1.0.0-beta.1" "1.0.0" = -1 := by
  constructor
  · intro a b hbase
    rw [compareVersions_def, if_neg (by simp [hbase])]
    refine ⟨?_, ?_, ?_⟩ <;> intro hpa hpb <;> simp [preCmpFull, hpa, hpb]
  · decide

/-- Witness for C5 at concrete version pairs. -/
theorem C5_release_beats_prerelease_witness :
    compareVersions "2.0.0-rc.1" "2.0.0" = -1
    ∧ compareVersions "2.0" "2.0.0" = 0 :=
  ⟨(C5_release_beats_prerelease.1 "2.0.0-rc.1" "2.0.0" (by decide)).1
      (by decide) (by decide),
    (C5_release_beats_prerelease.1 "2.0" "2.0.0" (by decide)).2.2
      (by decide) (by decide)⟩

/-- C6: with equal bases and two nonempty suffixes the comparator
compares the dot-split suffixes field by field; a missing field makes
the shorter suffix sort first, a canonical numeric field sorts before
a non-numeric one, two numeric fields compare numerically, two
non-numeric fields compare lexically; concretely
`compareVersions "1.0.0-beta.2" "1.0.0-beta.10" = -1`. -/
theorem C6_prerelease_field_rules :
    (∀ a b : String,
      cmpBaseLists (parseBase (jsSplit2 a).1) (parseBase (jsSplit2 b).1) = 0 →
      truthy (jsSplit2 a).2 = true → truthy (jsSplit2 b).2 = true →
      compareVersions a b
        = cmpPreLists (jsSplitOn '.' (((jsSplit2 a).2).getD ""))
            (jsSplitOn '.' (((jsSplit2 b).2).getD "")))
    ∧ (∀ (b : String) (bs : List String), cmpPreLists [] (b :: bs) = -1)
    ∧ (∀ (a : String) (as : List String), cmpPreLists (a :: as) [] = 1)
    ∧ (∀ x y : String, jsIsCanonNum x = true → jsIsCanonNum y = false →
        cmpPreField x y = -1)
    ∧ (∀ (x y : String) (m n : Int), jsParseInt x = some m → jsParseInt y = some n →
        jsIsCanonNum x = true → jsIsCanonNum y = true →
        cmpPreField x y = ltCmp m n)
    ∧ (∀ x y : String, jsIsCanonNum x = false → jsIsCanonNum y = false →
        cmpPreField x y = lexCmpBy ltCmp x.data y.data)
    ∧ compareVersions "1.0.0-beta.2" "1.0.0-beta.10" = -1 := by
  refine ⟨?_, ?_, ?_, ?_, ?_, ?_, by decide⟩
  · intro a b hbase hpa hpb
    rw [compareVersions_def, if_neg (by simp [hbase])]
    simp [preCmpFull, hpa, hpb]
  · intro b bs
    rfl
  · intro a as
    rfl
  · intro x y hx hy
    simp [cmpPreField, hx, hy]
  · intro x y m n hm hn hx hy
    simp [cmpPreField, hx, hy, jsNumVal_of_parse hm, jsNumVal_of_parse hn]
  · intro x y hx hy
    simp [cmpPreField, hx, hy]

/-- Witness for C6 at concrete fields and versions. -/
theorem C6_prerelease_field_rules_witness :
    compareVersions "1.0.0-a.b" "1.0.0-a.c"
        = cmpPreLists (jsSplitOn '.' "a.b") (jsSplitOn '.' "a.c")
    ∧ cmpPreField "2" "alpha" = -1
    ∧ cmpPreField "2" "10" = ltCmp (2 : Int) 10
    ∧ cmpPreField "alpha" "beta" = lexCmpBy ltCmp "alpha".data "beta".data :=
  ⟨C6_prerelease_field_rules.1 "1.0.0-a.b" "1.0.0-a.c"
      (by decide) (by decide) (by decide),
    C6_prerelease_field_rules.2.2.2.1 "2" "alpha" (by decide) (by decide),
    C6_prerelease_field_rules.2.2.2.2.1 "2" "10" 2 10
      (by decide) (by decide) (by decide) (by decide),
    C6_prerelease_field_rules.2.2.2.2.2.1 "alpha" "beta" (by decide) (by decide)⟩

theorem splitChar_ne_nil (sep : Char) : ∀ cs : List Char, splitChar sep cs ≠ [] := by
  intro cs
  induction cs with
  | nil => simp [splitChar]
  | cons c rest ih =>
    cases hs : splitChar sep rest with
    | nil => exact absurd hs ih
    | cons r rs =>
      simp only [splitChar, hs]
      by_cases hc : c = sep <;> simp [hc]

theorem jsSplitOn_ne_nil (sep : Char) (s : String) : jsSplitOn sep s ≠ [] := by
  unfold jsSplitOn
  simp [splitChar_ne_nil]

/-- C7 counterexample: the code's `split("-", 2)` keeps only the text
between the first and second hyphen, so the suffix of
`"1.0.0-beta-2"` is `"beta"`, not `"beta-2"`, and
`"1.0.0-beta-1"` / `"1.0.0-beta-2"` are not distinguished. -/
theorem C7_counterexample_split_truncates :
    (jsSplit2 "1.0.0-beta-2").2 ≠ some "beta-2"
    ∧ (jsSplit2 "1.0.0-beta-2").2 = some "beta"
    ∧ compareVersions "1.0.0-beta-1" "1.0.0-beta-2" = 0 := by
  refine ⟨by decide, by decide, by decide⟩

/-- C7 as amended: for every version string the pre-release suffix the
comparator sees is the second segment of the full hyphen split — the
text strictly between the first and second hyphen — so versions
differing only after a second hyphen carry the same suffix and compare
equal, as `"1.0.0-beta-1"` versus `"1.0.0-beta-2"` shows. -/
theorem C7_amended_suffix_is_second_segment :
    (∀ a : String, (jsSplit2 a).2 = (jsSplitOn '-' a)[1]?)
    ∧ (jsSplit2 "1.0.0-beta-2").2 = some "beta"
    ∧ compareVersions "1.0.0-beta-1" "1.0.0-beta-2" = 0 := by
  refine ⟨?_, by decide, by decide⟩
  intro a
  unfold jsSplit2
  cases h : jsSplitOn '-' a with
  | nil => exact absurd h (jsSplitOn_ne_nil '-' a)
  | cons b rest =>
    cases rest with
    | nil => simp
    | cons p ps => simp

/-- C8: an unparseable base component degrades to 0 rather than being
rejected, and trailing zero parts are neutral (missing trailing parts
default to 0); concretely `"1.abc.0"` and `"1.0"` both compare equal
to `"1.0.0"`. -/
theorem C8_malformed_base_degrades_to_zero :
    (∀ s : String, jsParseInt s = none → parseBasePart s = 0)
    ∧ (∀ (x : List Int) (n : Nat),
        cmpBaseLists x (x ++ List.replicate n 0) = 0
        ∧ cmpBaseLists (x ++ List.replicate n 0) x = 0)
    ∧ compareVersions "1.abc.0" "1.0.0" = 0
    ∧ compareVersions "1.0" "1.0.0" = 0 := by
  refine ⟨?_, ?_, by decide, by decide⟩
  · intro s h
    unfold parseBasePart
    rw [h]
    rfl
  · intro x n
    have h1 : cmpBaseLists x (x ++ List.replicate n 0) = 0 := by
      have hx : x.length ≤ x.length + n := by omega
      have hy : (x ++ List.replicate n 0).length ≤ x.length + n := by simp
      rw [cmpBaseLists_eq_lex (x.length + n) _ _ hx hy]
      have hpad : padTo (x.length + n) x = padTo (x.length + n) (x ++ List.replicate n 0) := by
        simp [padTo]
      rw [hpad]
      exact lexCmpBy_self ltCmp ltCmp_self _
    have h2 : cmpBaseLists (x ++ List.replicate n 0) x = 0 := by
      have := cmpBaseLists_antisym (x ++ List.replicate n 0) x
      omega
    exact ⟨h1, h2⟩

/-- Witness for C8 at a concrete unparseable component and padding. -/
theorem C8_malformed_base_degrades_to_zero_witness :
    parseBasePart "abc" = 0
    ∧ cmpBaseLists [1] ([1] ++ List.replicate 2 0) = 0 :=
  ⟨C8_malformed_base_degrades_to_zero.1 "abc" (by decide),
    (C8_malformed_base_degrades_to_zero.2.1 [1] 2).1⟩

/-- C10: a pre-release field is numeric only in canonical decimal
form; a field with a leading zero such as `"01"` is non-numeric and
sorts after any canonical numeric field, so
`compareVersions "1.0.0-beta.01" "1.0.0-beta.2" = 1`. -/
theorem C10_noncanonical_numeral_sorts_as_string :
    (∀ x y : String, jsIsCanonNum x = false → jsIsCanonNum y = true →
        cmpPreField x y = 1 ∧ cmpPreField y x = -1)
    ∧ jsIsCanonNum "01" = false
    ∧ jsIsCanonNum "2" = true
    ∧ compareVersions "1.0.0-beta.01" "1.0.0-beta.2" = 1 := by
  refine ⟨?_, by decide, by decide, by decide⟩
  intro x y hx hy
  constructor <;> simp [cmpPreField, hx, hy]

/-- Witness for C10 at the concrete fields of the claim. -/
theorem C10_noncanonical_numeral_sorts_as_string_witness :
    cmpPreField "01" "2" = 1 ∧ cmpPreField "2" "01" = -1 :=
  C10_noncanonical_numeral_sorts_as_string.1 "01" "2" (by decide) (by decide)

/-! ## The Template Reconciler (spec §4.5)

The reconciler itself is not shipped under src/; the definitions below
are modelled from the spec and carry that marker. -/

/-- Modelled from the spec: the `ReconciliationResult` aggregate of
§4.5 — created, updated, skipped, deleted and conflict/backup paths,
plus the structural-migration count for reporting. -/
structure RecResult : Type where
  created : List String
  updated : List String
  skipped : List String
  deleted : List String
  conflicts : List String
  migrationCount : Nat

/-- Modelled from the spec: the per-project persisted state the
reconciler reads and writes — the on-disk files, the content
fingerprint store (path to recorded hash), and the version marker. -/
structure ProjState : Type where
  disk : String → Option String
  fps : String → Option String
  version : String

/-- Append a created path to the result. -/
def addCreated (r : RecResult) (p : String) : RecResult :=
  ⟨r.created ++ [p], r.updated, r.skipped, r.deleted, r.conflicts, r.migrationCount⟩

/-- Append an updated path to the result. -/
def addUpdated (r : RecResult) (p : String) : RecResult :=
  ⟨r.created, r.updated ++ [p], r.skipped, r.deleted, r.conflicts, r.migrationCount⟩

/-- Append a skipped path to the result. -/
def addSkipped (r : RecResult) (p : String) : RecResult :=
  ⟨r.created, r.updated, r.skipped ++ [p], r.deleted, r.conflicts, r.migrationCount⟩

/-- Append a conflict (backup-and-replace) path to the result. -/
def addConflict (r : RecResult) (p : String) : RecResult :=
  ⟨r.created, r.updated, r.skipped, r.deleted, r.conflicts ++ [p], r.migrationCount⟩

/-- Modelled from the spec: apply one structural migration to the disk
mapping — a delete removes its source path, a rename moves the source
path's content to the destination path. -/
def applyItem (disk : String → Option String) (it : MigrationItem) :
    String → Option String :=
  match it.type with
  | MigrationType.delete => fun p => if p = it.from_ then none else disk p
  | MigrationType.rename =>
    match it.to_ with
    | none => disk
    | some dst => fun p =>
        if p = it.from_ then none
        else if p = dst then disk it.from_
        else disk p

/-- Modelled from the spec: apply the migration plan in its resolved
order before template diffing (§4.5). -/
def applyPlan (plan : List MigrationItem) (disk : String → Option String) :
    String → Option String :=
  plan.foldl applyItem disk

/-- Modelled from the spec: the per-file decision table of §4.5.
`acc` is (result, disk, fingerprints); `t` is one resolved template
(path, content). A missing file is created; a present file whose
recorded fingerprint equals the hash of the current template content
needs no update (skip — this covers both the pristine row and the
user-edited row with an unchanged template); otherwise a pristine file
(disk hash matches the recorded fingerprint) is overwritten, and a
user-edited one is backed up and overwritten (conflict). Every write
records the new fingerprint. -/
def reconcileFile (hash : String → String)
    (acc : RecResult × (String → Option String) × (String → Option String))
    (t : String × String) :
    RecResult × (String → Option String) × (String → Option String) :=
  match acc.2.1 t.1 with
  | none =>
      (addCreated acc.1 t.1,
       fun p => if p = t.1 then some t.2 else acc.2.1 p,
       fun p => if p = t.1 then some (hash t.2) else acc.2.2 p)
  | some onDisk =>
      if acc.2.2 t.1 = some (hash t.2) then
        (addSkipped acc.1 t.1, acc.2.1, acc.2.2)
      else if acc.2.2 t.1 = some (hash onDisk) then
        (addUpdated acc.1 t.1,
         fun p => if p = t.1 then some t.2 else acc.2.1 p,
         fun p => if p = t.1 then some (hash t.2) else acc.2.2 p)
      else
        (addConflict acc.1 t.1,
         fun p => if p = t.1 then some t.2 else acc.2.1 p,
         fun p => if p = t.1 then some (hash t.2) else acc.2.2 p)

/-- Modelled from the spec: `reconcile` (§4.5) — compute the migration
plan from the recorded project version to the target version, apply it
to the disk first, then run the per-file decision table over the
resolved templates; the version marker is raised to the target unless
that would be a downgrade (downgrade guard). -/
def reconcile (hash : String → String)
    (manifests : List (String × MigrationManifest))
    (templates : List (String × String))
    (targetV : String) (st : ProjState) : RecResult × ProjState :=
  let plan := getMigrationsForVersion manifests st.version targetV
  let disk0 := applyPlan plan st.disk
  let deleted := (plan.filter (fun it => match it.type with
      | MigrationType.delete => true
      | MigrationType.rename => false)).map (fun it => it.from_)
  let start : RecResult := ⟨[], [], [], deleted, [], plan.length⟩
  let out := templates.foldl (reconcileFile hash) (start, disk0, st.fps)
  let newV := if compareVersions targetV st.version < 0 then st.version else targetV
  (out.1, ⟨out.2.1, out.2.2, newV⟩)

theorem reconcileFile_preserves (hash : String → String)
    (acc : RecResult × (String → Option String) × (String → Option String))
    (t : String × String) (p : String) (hne : p ≠ t.1) :
    ((reconcileFile hash acc t).2.1 p = acc.2.1 p)
    ∧ ((reconcileFile hash acc t).2.2 p = acc.2.2 p) := by
  unfold reconcileFile
  cases hd : acc.2.1 t.1 with
  | none => simp [hne]
  | some d =>
    dsimp only
    by_cases h1 : acc.2.2 t.1 = some (hash t.2)
    · rw [if_pos h1]
      exact ⟨rfl, rfl⟩
    · rw [if_neg h1]
      by_cases h2 : acc.2.2 t.1 = some (hash d)
      · rw [if_pos h2]
        simp [hne]
      · rw [if_neg h2]
        simp [hne]

theorem reconcileFile_establishes (hash : String → String)
    (acc : RecResult × (String → Option String) × (String → Option String))
    (t : String × String) :
    (∃ d, (reconcileFile hash acc t).2.1 t.1 = some d)
    ∧ (reconcileFile hash acc t).2.2 t.1 = some (hash t.2) := by
  unfold reconcileFile
  cases hd : acc.2.1 t.1 with
  | none => refine ⟨⟨t.2, ?_⟩, ?_⟩ <;> simp
  | some d =>
    dsimp only
    by_cases h1 : acc.2.2 t.1 = some (hash t.2)
    · rw [if_pos h1]
      exact ⟨⟨d, hd⟩, h1⟩
    · rw [if_neg h1]
      by_cases h2 : acc.2.2 t.1 = some (hash d)
      · rw [if_pos h2]
        refine ⟨⟨t.2, ?_⟩, ?_⟩ <;> simp
      · rw [if_neg h2]
        refine ⟨⟨t.2, ?_⟩, ?_⟩ <;> simp

theorem foldl_reconcileFile_preserves (hash : String → String) :
    ∀ (ts : List (String × String)) acc (p : String), p ∉ ts.map Prod.fst →
      ((ts.foldl (reconcileFile hash) acc).2.1 p = acc.2.1 p)
      ∧ ((ts.foldl (reconcileFile hash) acc).2.2 p = acc.2.2 p) := by
  intro ts
  induction ts with
  | nil => intro acc p _; exact ⟨rfl, rfl⟩
  | cons t ts ih =>
    intro acc p hp
    simp only [List.map_cons, List.mem_cons, not_or] at hp
    obtain ⟨hp1, hp2⟩ := hp
    rw [List.foldl_cons]
    have h1 := ih (reconcileFile hash acc t) p hp2
    have h2 := reconcileFile_preserves hash acc t p hp1
    exact ⟨h1.1.trans h2.1, h1.2.trans h2.2⟩

/-- After one reconciliation pass, every template path is present on
disk and its recorded fingerprint is the hash of the current template
content. -/
theorem foldl_reconcileFile_establishes (hash : String → String) :
    ∀ (ts : List (String × String)) acc, (ts.map Prod.fst).Nodup →
      ∀ t ∈ ts,
        (∃ d, (ts.foldl (reconcileFile hash) acc).2.1 t.1 = some d)
        ∧ (ts.foldl (reconcileFile hash) acc).2.2 t.1 = some (hash t.2) := by
  intro ts
  induction ts with
  | nil => intro acc _ t ht; exact absurd ht (List.not_mem_nil t)
  | cons u ts ih =>
    intro acc hnd t ht
    simp only [List.map_cons, List.nodup_cons] at hnd
    obtain ⟨hu, hnd'⟩ := hnd
    rw [List.foldl_cons]
    rcases List.mem_cons.mp ht with rfl | ht'
    · have hest := reconcileFile_establishes hash acc t
      have hpres := foldl_reconcileFile_preserves hash ts (reconcileFile hash acc t) t.1 hu
      obtain ⟨d, hd⟩ := hest.1
      exact ⟨⟨d, hpres.1.trans hd⟩, hpres.2.trans hest.2⟩
    · exact ih (reconcileFile hash acc u) hnd' t ht'

/-- A pass over templates that are all present with matching
fingerprints only appends skips: the result lists other than `skipped`
and the disk and fingerprint maps come back unchanged. -/
theorem foldl_reconcileFile_skips (hash : String → String) :
    ∀ (ts : List (String × String)) (res : RecResult)
      (disk fps : String → Option String),
      (∀ t ∈ ts, (∃ d, disk t.1 = some d) ∧ fps t.1 = some (hash t.2)) →
      ((ts.foldl (reconcileFile hash) (res, disk, fps)).1.created = res.created)
      ∧ ((ts.foldl (reconcileFile hash) (res, disk, fps)).1.updated = res.updated)
      ∧ ((ts.foldl (reconcileFile hash) (res, disk, fps)).1.deleted = res.deleted)
      ∧ ((ts.foldl (reconcileFile hash) (res, disk, fps)).1.conflicts = res.conflicts)
      ∧ ((ts.foldl (reconcileFile hash) (res, disk, fps)).1.migrationCount = res.migrationCount)
      ∧ ((ts.foldl (reconcileFile hash) (res, disk, fps)).2.1 = disk)
      ∧ ((ts.foldl (reconcileFile hash) (res, disk, fps)).2.2 = fps) := by
  intro ts
  induction ts with
  | nil => intro res disk fps _; exact ⟨rfl, rfl, rfl, rfl, rfl, rfl, rfl⟩
  | cons t ts ih =>
    intro res disk fps hinv
    obtain ⟨⟨d, hd⟩, hf⟩ := hinv t (List.mem_cons_self t ts)
    have hstep : reconcileFile hash (res, disk, fps) t = (addSkipped res t.1, disk, fps) := by
      unfold reconcileFile
      simp only [hd, hf, if_pos]
    rw [List.foldl_cons, hstep]
    exact ih (addSkipped res t.1) disk fps
      (fun u hu => hinv u (List.mem_cons_of_mem t hu))

/-- C9: reconciliation is idempotent — running `reconcile` again
immediately after a run, with the same resolved templates and target
version and no intervening edit, performs zero file operations (no
creates, updates, deletes, conflict backups, and no structural
migrations) and leaves the project state exactly as the first run left
it. Template paths are assumed distinct (they name distinct files). -/
theorem C9_reconcile_idempotent :
    ∀ (hash : String → String) (manifests : List (String × MigrationManifest))
      (templates : List (String × String)) (targetV : String) (st : ProjState),
      (templates.map Prod.fst).Nodup →
      (reconcile hash manifests templates targetV
          (reconcile hash manifests templates targetV st).2).1.created = []
      ∧ (reconcile hash manifests templates targetV
          (reconcile hash manifests templates targetV st).2).1.updated = []
      ∧ (reconcile hash manifests templates targetV
          (reconcile hash manifests templates targetV st).2).1.deleted = []
      ∧ (reconcile hash manifests templates targetV
          (reconcile hash manifests templates targetV st).2).1.conflicts = []
      ∧ (reconcile hash manifests templates targetV
          (reconcile hash manifests templates targetV st).2).1.migrationCount = 0
      ∧ (reconcile hash manifests templates targetV
          (reconcile hash manifests templates targetV st).2).2
        = (reconcile hash manifests templates targetV st).2 := by
  intro hash manifests templates targetV st hnd
  set st1 := (reconcile hash manifests templates targetV st).2 with hst1
  have hver : st1.version = if compareVersions targetV st.version < 0
      then st.version else targetV := rfl
  have hplan2 : getMigrationsForVersion manifests st1.version targetV = [] := by
    apply plan_empty_of_no_upgrade
    by_cases hc : compareVersions targetV st.version < 0
    · rw [hver, if_pos hc]
      have := compareVersions_antisym targetV st.version
      omega
    · rw [hver, if_neg hc, compareVersions_self]
  have hinv : ∀ t ∈ templates, (∃ d, st1.disk t.1 = some d)
      ∧ st1.fps t.1 = some (hash t.2) := by
    intro t ht
    exact foldl_reconcileFile_establishes hash templates _ hnd t ht
  have hkey : reconcile hash manifests templates targetV st1
      = ((templates.foldl (reconcileFile hash)
            ((⟨[], [], [], [], [], 0⟩ : RecResult), st1.disk, st1.fps)).1,
          ⟨(templates.foldl (reconcileFile hash)
              ((⟨[], [], [], [], [], 0⟩ : RecResult), st1.disk, st1.fps)).2.1,
            (templates.foldl (reconcileFile hash)
              ((⟨[], [], [], [], [], 0⟩ : RecResult), st1.disk, st1.fps)).2.2,
            if compareVersions targetV st1.version < 0 then st1.version
            else targetV⟩) := by
    unfold reconcile
    rw [hplan2]
    rfl
  have hskips := foldl_reconcileFile_skips hash templates
    (⟨[], [], [], [], [], 0⟩ : RecResult) st1.disk st1.fps hinv
  have hver2 : (if compareVersions targetV st1.version < 0 then st1.version
      else targetV) = st1.version := by
    by_cases hc : compareVersions targetV st.version < 0
    · rw [hver, if_pos hc, if_pos hc]
    · rw [hver, if_neg hc, compareVersions_self]
      simp
  refine ⟨?_, ?_, ?_, ?_, ?_, ?_⟩
  · rw [hkey]
    exact hskips.1
  · rw [hkey]
    exact hskips.2.1
  · rw [hkey]
    exact hskips.2.2.1
  · rw [hkey]
    exact hskips.2.2.2.1
  · rw [hkey]
    exact hskips.2.2.2.2.1
  · rw [hkey]
    show (⟨_, _, _⟩ : ProjState) = st1
    rw [hskips.2.2.2.2.2.1, hskips.2.2.2.2.2.2, hver2]

/-- Witness for C9 on a concrete project: fresh disk, the fixture
manifests, one template, upgrading 0.1.0 → 0.3.0 twice. -/
theorem C9_reconcile_idempotent_witness :
    (reconcile (fun s => s) demoManifests [("a.md", "hello")] "0.3.0"
        (reconcile (fun s => s) demoManifests [("a.md", "hello")] "0.3.0"
          ⟨fun _ => none, fun _ => none, "0.1.0"⟩).2).1.created = []
    ∧ (reconcile (fun s => s) demoManifests [("a.md", "hello")] "0.3.0"
        (reconcile (fun s => s) demoManifests [("a.md", "hello")] "0.3.0"
          ⟨fun _ => none, fun _ => none, "0.1.0"⟩).2).1.updated = []
    ∧ (reconcile (fun s => s) demoManifests [("a.md", "hello")] "0.3.0"
        (reconcile (fun s => s) demoManifests [("a.md", "hello")] "0.3.0"
          ⟨fun _ => none, fun _ => none, "0.1.0"⟩).2).1.deleted = []
    ∧ (reconcile (fun s => s) demoManifests [("a.md", "hello")] "0.3.0"
        (reconcile (fun s => s) demoManifests [("a.md", "hello")] "0.3.0"
          ⟨fun _ => none, fun _ => none, "0.1.0"⟩).2).1.conflicts = []
    ∧ (reconcile (fun s => s) demoManifests [("a.md", "hello")] "0.3.0"
        (reconcile (fun s => s) demoManifests [("a.md", "hello")] "0.3.0"
          ⟨fun _ => none, fun _ => none, "0.1.0"⟩).2).1.migrationCount = 0
    ∧ (reconcile (fun s => s) demoManifests [("a.md", "hello")] "0.3.0"
        (reconcile (fun s => s) demoManifests [("a.md", "hello")] "0.3.0"
          ⟨fun _ => none, fun _ => none, "0.1.0"⟩).2).2
      = (reconcile (fun s => s) demoManifests [("a.md", "hello")] "0.3.0"
          ⟨fun _ => none, fun _ => none, "0.1.0"⟩).2 :=
  C9_reconcile_idempotent (fun s => s) demoManifests [("a.md", "hello")] "0.3.0"
    ⟨fun _ => none, fun _ => none, "0.1.0"⟩ (by decide)

end Trellis
